import Mathlib

/-!
# Verification of `list_license.py` (VRM_List_License)

A shallow embedding, in Lean 4, of the core of `list_license.py`:
the value normalizer (`normalize_for_compare`), the two metadata
adapters (`VRM0xMeta.get_license_info`, `VRM1Meta.get_license_info`,
including the `urllib.parse` query extraction the legacy adapter
uses), and the rule-matching classifier (`sort_files_by_mapdata`).

JSON values are modelled by the inductive `Json`; Python dictionaries
(metadata objects, rule condition maps) are modelled as association
lists `List (String × Json)` with first-occurrence lookup, which is
faithful because Python dict keys are unique.  String operations
model Python `str.strip` / `str.lower` on the ASCII range.
-/

namespace VRMTool

/-- A JSON value, as produced by `json.loads` in the source.
Numbers are modelled as integers (no claim involves non-integral
numerics). -/
inductive Json where
  | null
  | bool (b : Bool)
  | num (n : Int)
  | str (s : String)
  | arr (elems : List Json)
  | obj (fields : List (String × Json))
deriving Repr

/-- Structural equality of JSON values, modelling Python `==` on the
decoded values.  (Python's numeric coercion `True == 1` is outside
the model; metadata comparisons in the source only meet like-typed
values after `normalize_for_compare`.) -/
def Json.eqb : Json → Json → Bool
  | .null, .null => true
  | .bool a, .bool b => a == b
  | .num a, .num b => a == b
  | .str a, .str b => a == b
  | .arr a, .arr b => go a b
  | .obj a, .obj b => goF a b
  | _, _ => false
where
  go : List Json → List Json → Bool
    | [], [] => true
    | x :: xs, y :: ys => Json.eqb x y && go xs ys
    | _, _ => false
  goF : List (String × Json) → List (String × Json) → Bool
    | [], [] => true
    | (k, x) :: xs, (k2, y) :: ys => k == k2 && Json.eqb x y && goF xs ys
    | _, _ => false

mutual
theorem Json.eqb_iff : (a b : Json) → (Json.eqb a b = true ↔ a = b)
  | .null, b => by cases b <;> simp [Json.eqb]
  | .bool x, b => by cases b <;> simp [Json.eqb]
  | .num x, b => by cases b <;> simp [Json.eqb]
  | .str x, b => by cases b <;> simp [Json.eqb]
  | .arr xs, .null => by simp [Json.eqb]
  | .arr xs, .bool _ => by simp [Json.eqb]
  | .arr xs, .num _ => by simp [Json.eqb]
  | .arr xs, .str _ => by simp [Json.eqb]
  | .arr xs, .arr ys => by simpa [Json.eqb] using Json.eqb_go_iff xs ys
  | .arr xs, .obj _ => by simp [Json.eqb]
  | .obj xs, .null => by simp [Json.eqb]
  | .obj xs, .bool _ => by simp [Json.eqb]
  | .obj xs, .num _ => by simp [Json.eqb]
  | .obj xs, .str _ => by simp [Json.eqb]
  | .obj xs, .arr _ => by simp [Json.eqb]
  | .obj xs, .obj ys => by simpa [Json.eqb] using Json.eqb_goF_iff xs ys

theorem Json.eqb_go_iff : (xs ys : List Json) → (Json.eqb.go xs ys = true ↔ xs = ys)
  | [], [] => by simp [Json.eqb.go]
  | [], _ :: _ => by simp [Json.eqb.go]
  | _ :: _, [] => by simp [Json.eqb.go]
  | x :: xs, y :: ys => by
      simp [Json.eqb.go, Json.eqb_iff x y, Json.eqb_go_iff xs ys]

theorem Json.eqb_goF_iff : (xs ys : List (String × Json)) →
    (Json.eqb.goF xs ys = true ↔ xs = ys)
  | [], [] => by simp [Json.eqb.goF]
  | [], _ :: _ => by simp [Json.eqb.goF]
  | _ :: _, [] => by simp [Json.eqb.goF]
  | (k, x) :: xs, (k2, y) :: ys => by
      simp [Json.eqb.goF, Json.eqb_iff x y, Json.eqb_goF_iff xs ys, and_assoc]
end

instance : DecidableEq Json := fun a b =>
  decidable_of_iff (Json.eqb a b = true) (Json.eqb_iff a b)

/-- ASCII model of Python `str.isspace` for the characters `str.strip`
removes. -/
def isPySpace (c : Char) : Bool :=
  c = ' ' || c = '\t' || c = '\n' || c = '\r' || c = '\x0b' || c = '\x0c'

/-- ASCII model of Python `str.lower` on one character. -/
def pyLowerChar (c : Char) : Char :=
  match c with
  | 'A' => 'a' | 'B' => 'b' | 'C' => 'c' | 'D' => 'd' | 'E' => 'e'
  | 'F' => 'f' | 'G' => 'g' | 'H' => 'h' | 'I' => 'i' | 'J' => 'j'
  | 'K' => 'k' | 'L' => 'l' | 'M' => 'm' | 'N' => 'n' | 'O' => 'o'
  | 'P' => 'p' | 'Q' => 'q' | 'R' => 'r' | 'S' => 's' | 'T' => 't'
  | 'U' => 'u' | 'V' => 'v' | 'W' => 'w' | 'X' => 'x' | 'Y' => 'y'
  | 'Z' => 'z'
  | c => c

/-- `value.strip()` on the underlying character list: drop leading and
trailing whitespace. -/
def stripList (l : List Char) : List Char :=
  ((l.dropWhile isPySpace).reverse.dropWhile isPySpace).reverse

/-- Python `value.strip()`. -/
def pyStrip (s : String) : String := ⟨stripList s.data⟩

/-- Python `value.lower()` (ASCII model). -/
def pyLower (s : String) : String := ⟨s.data.map pyLowerChar⟩

/-- `normalize_for_compare` from the source (lines 92-106): strings are
trimmed and lower-cased, the literal strings `"true"` / `"false"`
become booleans, anything else passes through unchanged. -/
def normalize_for_compare (v : Json) : Json :=
  match v with
  | .str s =>
      let t := pyLower (pyStrip s)
      if t = "true" then .bool true
      else if t = "false" then .bool false
      else .str t
  | v => v


/-! ## Classifier (`sort_files_by_mapdata`, lines 318-393)

A metadata record (`meta` in the source, a Python dict) is an
association list `List (String × Json)`; a `mapping` entry of the
persisted `mapdata.json` is a `Mapping` below (its `"directory"` and
`"target"` members). -/

/-- One entry of the `"sorted"` list of `mapdata.json`: the destination
directory (`mapping.get("directory")`, absent modelled as `none`) and
the condition map `target`. -/
structure Mapping where
  directory : Option String
  target : List (String × Json)
deriving Repr, DecidableEq

/-- One condition comparison (source lines 358-368): the file's value is
normalized; a list-valued rule condition matches if any normalized
member equals it (OR semantics), a scalar condition must be equal after
normalizing both sides. -/
def condMatches (mapping_value file_value : Json) : Bool :=
  let norm_file_val := normalize_for_compare file_value
  match mapping_value with
  | .arr xs => xs.any fun x => decide (normalize_for_compare x = norm_file_val)
  | mv => decide (norm_file_val = normalize_for_compare mv)

/-- The condition-evaluation loop of one rule (source lines 349-368):
walks the `target` items, counting condition keys present in the file's
metadata (`evaluated_keys`) and short-circuiting to `false` on a `null`
file value or a failed comparison.  Returns
(`evaluated_keys`, `all_match`). -/
def evalTarget (meta : List (String × Json)) :
    List (String × Json) → Nat → Nat × Bool
  | [], n => (n, true)
  | (key, mapping_value) :: rest, n =>
    match meta.lookup key with
    | none => evalTarget meta rest n
    | some file_value =>
      if file_value = Json.null then (n + 1, false)
      else if condMatches mapping_value file_value then
        evalTarget meta rest (n + 1)
      else (n + 1, false)

/-- A rule fully matches iff its condition loop ends with
`all_match = true` and at least one condition key was present in the
file's metadata (source lines 369-371: `evaluated_keys == 0` forces
failure). -/
def ruleMatches (target meta : List (String × Json)) : Bool :=
  let r := evalTarget meta target 0
  if r.1 = 0 then false else r.2

/-- Python truthiness of `mapping.get("directory")` as used at source
lines 373-374: a move only happens when the directory is a present,
non-empty string. -/
def effectiveDir : Option String → Option String
  | none => none
  | some d => if d = "" then none else some d

/-- The outcome of one iteration of the mapping loop (source lines
345-382) for one mapping: `some dir` when the file is moved there
(rule matched and directory truthy), `none` when the loop continues
(empty `target`, no match, or falsy directory). -/
def stepResult (meta : List (String × Json)) (m : Mapping) : Option String :=
  if m.target = [] then none
  else if ruleMatches m.target meta then effectiveDir m.directory
  else none

/-- The mapping loop over `normal_mappings`: the first mapping that
moves the file wins. -/
def classifyNormals (meta : List (String × Json)) :
    List Mapping → Option String
  | [] => none
  | m :: rest =>
    match stepResult meta m with
    | some d => some d
    | none => classifyNormals meta rest

/-- The separation test of source line 328: an entry whose directory is
exactly `"DoNotUse"` and whose condition map is empty. -/
def isFallbackEntry (m : Mapping) : Bool :=
  decide (m.directory = some "DoNotUse") && m.target.isEmpty

/-- The separation loop of source lines 324-331: each qualifying entry
overwrites `donotuse_mapping` (so the last one is kept), every other
entry is appended to `normal_mappings` in order. -/
def separateLoop : List Mapping → Option Mapping → List Mapping →
    Option Mapping × List Mapping
  | [], donotuse, normals => (donotuse, normals)
  | m :: rest, donotuse, normals =>
    if isFallbackEntry m then separateLoop rest (some m) normals
    else separateLoop rest donotuse (normals ++ [m])

/-- `sorted_mappings` split into the fallback (if any) and the ordered
conditional rules, exactly as the source does. -/
def separate (ms : List Mapping) : Option Mapping × List Mapping :=
  separateLoop ms none []

/-- Classification of one file against separated mappings (source lines
343-392): first matching normal mapping with a truthy directory wins;
otherwise the `DoNotUse` fallback (if present, with truthy directory);
otherwise the file stays where it is (`none`). -/
def classifyParts (parts : Option Mapping × List Mapping)
    (meta : List (String × Json)) : Option String :=
  match classifyNormals meta parts.2 with
  | some d => some d
  | none =>
    match parts.1 with
    | some fb => effectiveDir fb.directory
    | none => none

/-- Destination chosen for one file's metadata by
`sort_files_by_mapdata` given the `"sorted"` mapping list:
`some dir` means the file is moved to `dir`, `none` means it is left
in place. -/
def classify (ms : List Mapping) (meta : List (String × Json)) :
    Option String :=
  classifyParts (separate ms) meta

/-- The first conditional rule (member of `normal_mappings`, in stored
order) whose conditions fully match the file's metadata. -/
def firstFullMatch (ms : List Mapping) (meta : List (String × Json)) :
    Option Mapping :=
  (separate ms).2.find? fun m => ruleMatches m.target meta


/-! ## Metadata adapters (`VRM0xMeta` / `VRM1Meta`, lines 170-244)

The unified license-info record.  In the source it is a dict whose
values are whatever `meta.get(...)` returned (so a field can hold any
JSON value, not only strings); each field below is therefore `Json`. -/

/-- The unified metadata record built by `get_license_info` (both
schema variants), one field per `info[...]` assignment. -/
structure Info where
  file_name : Json
  vrm_version : Json
  model_name : Json
  author : Json
  contact : Json
  reference_url : Json
  commercial_usage : Json
  redistribution : Json
  credit_notation : Json
  modification : Json
  avatar_permission : Json
  sexual_expression : Json
  violence_expression : Json
  license : Json
  other_permission_url : Json
  other_license_url : Json
deriving Repr, DecidableEq

/-- Python `self.meta.get(key, default)`: the stored value when the key
is present (even when that value is `null`), the default otherwise. -/
def metaGetD (meta : List (String × Json)) (key : String) (d : Json) : Json :=
  (meta.lookup key).getD d

/-- Python truthiness of a decoded JSON value. -/
def truthy : Json → Bool
  | .null => false
  | .bool b => b
  | .num n => decide (n ≠ 0)
  | .str s => decide (s ≠ "")
  | .arr xs => !xs.isEmpty
  | .obj fs => !fs.isEmpty

/-- The VRM 1.0 tri-state pattern (source lines 223-227, 231-240):
`meta.get(key, None)`; `None` (key absent, or stored value `null`)
gives the sentinel, otherwise truthiness selects `"Allowed"` /
`"Not allowed"`. -/
def triState (meta : List (String × Json)) (key : String) : Json :=
  match meta.lookup key with
  | none => .str "--"
  | some .null => .str "--"
  | some v => if truthy v then .str "Allowed" else .str "Not allowed"

/-- Python `", ".join(authors)` (source line 219): joins a list of
strings; a plain string is iterated character by character; any other
value (or a non-string member) raises `TypeError`. -/
def pyJoin (sep : String) : Json → Except String String
  | .str s => .ok (String.intercalate sep (s.data.map fun c => String.mk [c]))
  | .arr xs =>
      match (xs.mapM fun x =>
        match x with
        | .str s => Except.ok s
        | _ => (Except.error "TypeError: join expects strings" :
            Except String String)) with
      | .ok parts => .ok (String.intercalate sep parts)
      | .error e => .error e
  | _ => .error "TypeError: join expects an iterable of strings"

/-! ### `urllib.parse` query extraction (used at source lines 187-194)

`urlparse(url).query` followed by
`parse_qs(...).get("redistribution", ["--"])[0]`. -/

/-- Split a character list at the first occurrence of `c`:
`some (before, after)` when `c` occurs. -/
def splitFirst (c : Char) : List Char → Option (List Char × List Char)
  | [] => none
  | x :: xs =>
    if x = c then some ([], xs)
    else (splitFirst c xs).map fun p => (x :: p.1, p.2)

/-- `urlsplit` removes ASCII tab / CR / LF from the URL before
parsing. -/
def removeUnsafeChars (s : String) : String :=
  ⟨s.data.filter fun c => !(c = '\t' || c = '\r' || c = '\n')⟩

/-- The `query` component of `urlparse(url)`: the fragment (everything
after the first `#`) is split off first, then the query is everything
after the first `?` of what remains. -/
def urlQuery (url : String) : String :=
  let u := (removeUnsafeChars url).data
  let beforeFrag :=
    match splitFirst '#' u with
    | some p => p.1
    | none => u
  match splitFirst '?' beforeFrag with
  | some p => ⟨p.2⟩
  | none => ""

/-- Value of one hex digit, if `c` is one. -/
def hexVal (c : Char) : Option Nat :=
  if '0' ≤ c ∧ c ≤ '9' then some (c.toNat - '0'.toNat)
  else if 'a' ≤ c ∧ c ≤ 'f' then some (c.toNat - 'a'.toNat + 10)
  else if 'A' ≤ c ∧ c ≤ 'F' then some (c.toNat - 'A'.toNat + 10)
  else none

/-- Percent-decoding as in `urllib.parse.unquote`: a `%` followed by two
hex digits becomes that code point, an invalid escape is kept
literally.  (CPython decodes multi-byte UTF-8 escape sequences; this
model maps each escaped byte to one code point, which agrees with
CPython on ASCII escapes.)  The `Nat` argument is fuel, instantiated
with the list length by `percentDecode`; a scan step consumes at least
one character, so the fuel never runs out. -/
def percentDecodeAux : Nat → List Char → List Char
  | 0, l => l
  | _ + 1, [] => []
  | fuel + 1, c :: rest =>
    if c = '%' then
      match rest with
      | a :: b :: rest2 =>
        match hexVal a, hexVal b with
        | some x, some y => Char.ofNat (16 * x + y) :: percentDecodeAux fuel rest2
        | _, _ => c :: percentDecodeAux fuel rest
      | _ => c :: percentDecodeAux fuel rest
    else c :: percentDecodeAux fuel rest

/-- Percent-decoding of a whole character list. -/
def percentDecode (l : List Char) : List Char :=
  percentDecodeAux l.length l

/-- `unquote_plus`: `+` becomes a space, then percent-escapes are
decoded. -/
def unquotePlus (s : String) : String :=
  ⟨percentDecode (s.data.map fun c => if c = '+' then ' ' else c)⟩

/-- `qs.split(sep)` on character lists (Python `str.split` with an
explicit separator: splitting the empty string yields one empty
piece). -/
def splitOn (c : Char) : List Char → List (List Char)
  | [] => [[]]
  | x :: xs =>
    if x = c then [] :: splitOn c xs
    else
      match splitOn c xs with
      | h :: t => (x :: h) :: t
      | [] => [[x]]

/-- `parse_qsl` with default arguments: split the query on `&`, drop
empty segments, split each segment at its first `=` (segments without
`=` or with an empty value are dropped, since `keep_blank_values` is
false), and unquote names and values. -/
def parseQsl (qs : String) : List (String × String) :=
  (splitOn '&' qs.data).filterMap fun seg =>
    match splitFirst '=' seg with
    | none => none
    | some (n, v) =>
      if v = [] then none
      else some (unquotePlus ⟨n⟩, unquotePlus ⟨v⟩)

/-- `parse_qs(urlparse(url).query).get(name, [d])[0]`: the first value
bound to `name` in the URL's query string, or `d` when there is
none. -/
def getQueryParamD (url name d : String) : String :=
  match (parseQsl (urlQuery url)).find? fun p => p.1 = name with
  | some p => p.2
  | none => d


/-- The `redistribution` derivation of `VRM0xMeta.get_license_info`
(source lines 187-194): a falsy `otherPermissionUrl` (absent, empty
string, `null`, ...) gives the sentinel; a non-empty string is parsed
as a URL; any other truthy value would raise in `urlparse`. -/
def vrm0xRedistribution (meta : List (String × Json)) : Except String String :=
  let other_permission_url := metaGetD meta "otherPermissionUrl" (.str "")
  if truthy other_permission_url then
    match other_permission_url with
    | .str url => .ok (getQueryParamD url "redistribution" "--")
    | _ => .error "TypeError: urlparse expects a string"
  else .ok "--"

/-- `VRM0xMeta.get_license_info` (source lines 177-203), as a function
of the `meta` object and the file name. -/
def vrm0xGetLicenseInfo (meta : List (String × Json)) (file_name : String) :
    Except String Info :=
  match vrm0xRedistribution meta with
  | .error e => .error e
  | .ok redistribution => .ok {
      file_name := .str file_name
      vrm_version := .str "0.x"
      model_name := metaGetD meta "title" (.str "--")
      author := metaGetD meta "author" (.str "--")
      contact := metaGetD meta "contactInformation" (.str "--")
      reference_url := metaGetD meta "reference" (.str "--")
      commercial_usage := metaGetD meta "commercialUssageName" (.str "--")
      redistribution := .str redistribution
      credit_notation := metaGetD meta "creditNotation" (.str "--")
      modification := metaGetD meta "modification" (.str "--")
      avatar_permission := metaGetD meta "allowedUserName" (.str "--")
      sexual_expression := metaGetD meta "sexualUssageName" (.str "--")
      violence_expression := metaGetD meta "violentUssageName" (.str "--")
      license := metaGetD meta "licenseName" (.str "--")
      other_permission_url := metaGetD meta "otherPermissionUrl" (.str "--")
      other_license_url := metaGetD meta "otherLicenseUrl" (.str "--") }

/-- `VRM1Meta.get_license_info` (source lines 212-244), as a function of
the `meta` object and the file name. -/
def vrm1GetLicenseInfo (meta : List (String × Json)) (file_name : String) :
    Except String Info :=
  match pyJoin ", " (metaGetD meta "authors" (.arr [.str "--"])) with
  | .error e => .error e
  | .ok author => .ok {
      file_name := .str file_name
      vrm_version := .str "1.0"
      model_name := metaGetD meta "name" (.str "--")
      author := .str author
      contact := .str "--"
      reference_url := .str "--"
      commercial_usage := metaGetD meta "commercialUsage" (.str "--")
      redistribution := triState meta "allowRedistribution"
      credit_notation := metaGetD meta "creditNotation" (.str "--")
      modification := metaGetD meta "modification" (.str "--")
      avatar_permission := metaGetD meta "avatarPermission" (.str "--")
      sexual_expression := triState meta "allowExcessivelySexualUsage"
      violence_expression := triState meta "allowExcessivelyViolentUsage"
      license := metaGetD meta "licenseUrl" (.str "--")
      other_permission_url := .str "--"
      other_license_url := .str "--" }

/-- Every field of an `Info` record differs from the native JSON
`null`. -/
def nonNullInfo (i : Info) : Prop :=
  i.file_name ≠ Json.null ∧ i.vrm_version ≠ Json.null
  ∧ i.model_name ≠ Json.null ∧ i.author ≠ Json.null
  ∧ i.contact ≠ Json.null ∧ i.reference_url ≠ Json.null
  ∧ i.commercial_usage ≠ Json.null ∧ i.redistribution ≠ Json.null
  ∧ i.credit_notation ≠ Json.null ∧ i.modification ≠ Json.null
  ∧ i.avatar_permission ≠ Json.null ∧ i.sexual_expression ≠ Json.null
  ∧ i.violence_expression ≠ Json.null ∧ i.license ≠ Json.null
  ∧ i.other_permission_url ≠ Json.null ∧ i.other_license_url ≠ Json.null


/-! ## Loading `mapdata.json` and the raw pass (source lines 318-393)

`sort_files_by_mapdata` reads the persisted record with
`mapdata.get("mapdata", {}).get("sorted", [])` — missing sections
silently default — runs the separation loop over the raw entries
before the per-file loop starts, and only inspects each entry's
`"target"` and `"directory"` values lazily, per file: a truthy
non-dict `target` raises at `.items()` during evaluation, a truthy
non-string directory raises at `os.path.join` during a move.  The raw
layer below keeps each entry as its underlying dict so those errors
happen at the same point as in the source; `none` / `Except.error`
model a raised Python exception. -/

/-- Python `j.get(key, default)`: `none` when `j` is not a dict
(`AttributeError`). -/
def dictGetD (j : Json) (key : String) (d : Json) : Option Json :=
  match j with
  | .obj fields => some ((fields.lookup key).getD d)
  | _ => none

/-- `mapdata.get("mapdata", {}).get("sorted", [])` (source line 321). -/
def getSortedMappings (mapdata : Json) : Option Json :=
  (dictGetD mapdata "mapdata" (.obj [])).bind fun m =>
    dictGetD m "sorted" (.arr [])

/-- Iterating `for mapping in sorted_mappings`: each entry must be a
dict for the `mapping.get(...)` calls of the separation loop (lines
326-331), so a non-dict entry raises `AttributeError` there, before
any file is processed; the entry's contents are kept raw.  A JSON
array yields its entries; an empty dict or empty string iterates to
nothing; any other value raises while iterating. -/
def readMappings : Json → Except String (List (List (String × Json)))
  | .arr l => l.mapM fun j =>
      match j with
      | .obj fields => .ok fields
      | _ => (.error "AttributeError: get on a non-dict mapping" :
          Except String (List (String × Json)))
  | .obj [] => .ok []
  | .str "" => .ok []
  | _ => .error "TypeError: not iterable as mappings"

/-- The separation test of source line 328 on a raw entry:
`mapping.get("directory") == "DoNotUse" and not target_dict`, where
`target_dict = mapping.get("target", {})` may be any JSON value and
only its truthiness is consulted. -/
def isRawFallbackEntry (fields : List (String × Json)) : Bool :=
  decide (fields.lookup "directory" = some (Json.str "DoNotUse"))
    && !truthy ((fields.lookup "target").getD (.obj []))

/-- The separation loop of source lines 324-331 over raw entries: each
qualifying entry overwrites `donotuse_mapping`, every other entry is
appended to `normal_mappings` in order. -/
def separateRawLoop : List (List (String × Json)) →
    Option (List (String × Json)) → List (List (String × Json)) →
    Option (List (String × Json)) × List (List (String × Json))
  | [], donotuse, normals => (donotuse, normals)
  | m :: rest, donotuse, normals =>
    if isRawFallbackEntry m then separateRawLoop rest (some m) normals
    else separateRawLoop rest donotuse (normals ++ [m])

/-- The move of source lines 373-380 (and 385-391): `if target_dir:` —
a falsy directory (absent, `null`, `""`, `0`, `false`, empty
containers) does nothing, a truthy string moves the file there, and a
truthy non-string raises in `os.path.join`. -/
def moveToDirectory : Option Json → Except String (Option String)
  | none => .ok none
  | some d =>
    if truthy d then
      match d with
      | .str dir => .ok (some dir)
      | _ => .error "TypeError: non-string directory path"
    else .ok none

/-- One iteration of the mapping loop (source lines 345-382) on a raw
entry: `.ok (some dir)` when the file is moved to `dir` (and the loop
breaks), `.ok none` when the loop continues (falsy `target`, no
match, falsy directory), `.error` where the source raises (a truthy
non-dict `target` at `.items()`, a truthy non-string directory at the
move). -/
def stepRaw (meta fields : List (String × Json)) :
    Except String (Option String) :=
  let target_dict := (fields.lookup "target").getD (.obj [])
  if truthy target_dict then
    match target_dict with
    | .obj target_fields =>
      if ruleMatches target_fields meta then
        moveToDirectory (fields.lookup "directory")
      else .ok none
    | _ => .error "AttributeError: items on a non-dict target"
  else .ok none

/-- The mapping loop over `normal_mappings` for one file: the first
entry that moves the file wins; a raised exception aborts. -/
def classifyRawNormals (meta : List (String × Json)) :
    List (List (String × Json)) → Except String (Option String)
  | [] => .ok none
  | m :: rest =>
    match stepRaw meta m with
    | .error e => .error e
    | .ok (some d) => .ok (some d)
    | .ok none => classifyRawNormals meta rest

/-- Classification of one file against the separated raw mappings
(source lines 343-392): conditional rules first, then the `DoNotUse`
fallback move (lines 384-392) when nothing matched. -/
def classifyRawFile
    (parts : Option (List (String × Json)) × List (List (String × Json)))
    (meta : List (String × Json)) : Except String (Option String) :=
  match classifyRawNormals meta parts.2 with
  | .error e => .error e
  | .ok (some d) => .ok (some d)
  | .ok none =>
    match parts.1 with
    | some fb => moveToDirectory (fb.lookup "directory")
    | none => .ok none

/-- The whole classification pass of `sort_files_by_mapdata` over a
loaded `mapdata.json` value and the metadata of the files in the
batch: read and separate the raw mappings (a failure there aborts
before the first file), then process every file in order; a per-file
exception aborts the rest of the batch.  `.ok results` means the pass
ran to completion, with one destination-or-`none` per file. -/
def sortPass (mapdata : Json) (files : List (List (String × Json))) :
    Except String (List (Option String)) :=
  match getSortedMappings mapdata with
  | none => .error "AttributeError: get on a non-dict mapdata"
  | some sortedJson =>
    match readMappings sortedJson with
    | .error e => .error e
    | .ok ms =>
      files.mapM fun meta => classifyRawFile (separateRawLoop ms none []) meta

/-- Modelled from the spec's description of fallback selection
(claim C6): take the **first** structurally-qualifying entry (reserved
label, empty conditions) as the fallback and keep every other entry —
including any later same-labeled ones — as an ordinary conditional
rule in stored order. -/
def separateSpec (ms : List Mapping) : Option Mapping × List Mapping :=
  match ms.find? isFallbackEntry with
  | some fb => (some fb, ms.eraseP isFallbackEntry)
  | none => (none, ms)



/-! ## Lemmas about the value normalizer -/

set_option maxHeartbeats 2000000 in
theorem pyLowerChar_idem (c : Char) :
    pyLowerChar (pyLowerChar c) = pyLowerChar c := by
  unfold pyLowerChar
  split <;> try rfl
  all_goals (rename_i heq; split at heq <;> simp_all)

theorem isPySpace_pyLowerChar (c : Char) :
    isPySpace (pyLowerChar c) = isPySpace c := by
  unfold pyLowerChar
  split <;> rfl

theorem dropWhile_idem (p : Char → Bool) (l : List Char) :
    (l.dropWhile p).dropWhile p = l.dropWhile p := by
  induction l with
  | nil => rfl
  | cons c l ih =>
    by_cases h : p c
    · simp [List.dropWhile_cons, h, ih]
    · simp [List.dropWhile_cons, h]

theorem dropWhile_map_pyLowerChar (l : List Char) :
    (l.map pyLowerChar).dropWhile isPySpace =
      (l.dropWhile isPySpace).map pyLowerChar := by
  induction l with
  | nil => rfl
  | cons c l ih =>
    by_cases h : isPySpace c
    · simp [List.dropWhile_cons, isPySpace_pyLowerChar, h, ih]
    · simp [List.dropWhile_cons, isPySpace_pyLowerChar, h]

theorem stripList_map_pyLowerChar (l : List Char) :
    stripList (l.map pyLowerChar) = (stripList l).map pyLowerChar := by
  unfold stripList
  rw [dropWhile_map_pyLowerChar, ← List.map_reverse, dropWhile_map_pyLowerChar,
    ← List.map_reverse]

theorem map_pyLowerChar_idem (l : List Char) :
    (l.map pyLowerChar).map pyLowerChar = l.map pyLowerChar := by
  rw [List.map_map]
  exact List.map_congr_left fun a _ => pyLowerChar_idem a

theorem dropWhile_eq_self_of_head (l : List Char)
    (h : ∀ c, l.head? = some c → isPySpace c = false) :
    l.dropWhile isPySpace = l := by
  cases l with
  | nil => rfl
  | cons c t => simp [List.dropWhile_cons, h c rfl]

theorem head?_dropWhile_false (l : List Char) (c : Char)
    (h : (l.dropWhile isPySpace).head? = some c) : isPySpace c = false := by
  induction l with
  | nil => simp at h
  | cons a t ih =>
    by_cases ha : isPySpace a
    · rw [List.dropWhile_cons, if_pos ha] at h; exact ih h
    · rw [List.dropWhile_cons, if_neg ha] at h
      simp only [List.head?_cons, Option.some.injEq] at h
      subst h
      simpa using ha

theorem stripList_idem (l : List Char) :
    stripList (stripList l) = stripList l := by
  cases hd : l.dropWhile isPySpace with
  | nil => simp [stripList, hd]
  | cons a u =>
    have ha : isPySpace a = false := head?_dropWhile_false l a (by rw [hd]; rfl)
    have hdw : (u.reverse.dropWhile isPySpace).dropWhile isPySpace
        = u.reverse.dropWhile isPySpace := dropWhile_idem _ _
    have h1 : stripList l = a :: (u.reverse.dropWhile isPySpace).reverse := by
      rw [stripList, hd, show (a :: u).reverse = u.reverse ++ [a] by simp,
        List.dropWhile_append]
      by_cases he : (u.reverse.dropWhile isPySpace).isEmpty
      · have hwnil : u.reverse.dropWhile isPySpace = [] := by simpa using he
        rw [if_pos he, hwnil]
        simp [List.dropWhile_cons, ha]
      · rw [if_neg he]
        simp
    have h2 : stripList (a :: (u.reverse.dropWhile isPySpace).reverse)
        = a :: (u.reverse.dropWhile isPySpace).reverse := by
      rw [stripList]
      rw [dropWhile_eq_self_of_head
        (a :: (u.reverse.dropWhile isPySpace).reverse) (fun c hc => by
        simp only [List.head?_cons, Option.some.injEq] at hc
        subst hc
        exact ha)]
      rw [show (a :: (u.reverse.dropWhile isPySpace).reverse).reverse
          = u.reverse.dropWhile isPySpace ++ [a] by simp]
      rw [List.dropWhile_append, hdw]
      by_cases he : (u.reverse.dropWhile isPySpace).isEmpty
      · have hwnil : u.reverse.dropWhile isPySpace = [] := by simpa using he
        rw [if_pos he, hwnil]
        simp [List.dropWhile_cons, ha]
      · rw [if_neg he]
        simp
    rw [h1, h2]

theorem normStr_idem (s : String) :
    pyLower (pyStrip (pyLower (pyStrip s))) = pyLower (pyStrip s) := by
  cases s with
  | mk data =>
    simp only [pyLower, pyStrip, stripList_map_pyLowerChar, stripList_idem,
      map_pyLowerChar_idem]

/-- Claim C9: `normalize_for_compare` is idempotent — for every value
(in particular every metadata field value a rule is compared against),
normalizing twice gives the same result as normalizing once. -/
theorem normalize_for_compare_idem (v : Json) :
    normalize_for_compare (normalize_for_compare v) = normalize_for_compare v := by
  cases v with
  | str s =>
    show normalize_for_compare
      (if pyLower (pyStrip s) = "true" then .bool true
       else if pyLower (pyStrip s) = "false" then .bool false
       else .str (pyLower (pyStrip s))) = _
    by_cases h1 : pyLower (pyStrip s) = "true"
    · simp [normalize_for_compare, h1]
    · by_cases h2 : pyLower (pyStrip s) = "false"
      · simp [normalize_for_compare, h1, h2]
      · simp only [if_neg h1, if_neg h2]
        show (if pyLower (pyStrip (pyLower (pyStrip s))) = "true" then Json.bool true
          else if pyLower (pyStrip (pyLower (pyStrip s))) = "false" then Json.bool false
          else .str (pyLower (pyStrip (pyLower (pyStrip s))))) = _
        rw [normStr_idem, if_neg h1, if_neg h2]
        show Json.str (pyLower (pyStrip s)) = normalize_for_compare (.str s)
        simp [normalize_for_compare, if_neg h1, if_neg h2]
  | null => rfl
  | bool b => rfl
  | num n => rfl
  | arr l => rfl
  | obj o => rfl

/-! ## Lemmas about the classifier -/

theorem ruleMatches_nil (meta : List (String × Json)) :
    ruleMatches [] meta = false := rfl

theorem evalTarget_absent (meta target : List (String × Json)) (n : Nat)
    (h : ∀ p ∈ target, meta.lookup p.1 = none) :
    evalTarget meta target n = (n, true) := by
  induction target generalizing n with
  | nil => rfl
  | cons p rest ih =>
    obtain ⟨k, mv⟩ := p
    have hk : meta.lookup k = none := h (k, mv) (List.mem_cons_self _ _)
    simp only [evalTarget, hk]
    exact ih n fun q hq => h q (List.mem_cons_of_mem _ hq)

theorem ruleMatches_false_of_absent (target meta : List (String × Json))
    (h : ∀ p ∈ target, meta.lookup p.1 = none) :
    ruleMatches target meta = false := by
  simp [ruleMatches, evalTarget_absent meta target 0 h]

theorem stepResult_eq_none (meta : List (String × Json)) (m : Mapping)
    (h : ruleMatches m.target meta = false) : stepResult meta m = none := by
  unfold stepResult
  by_cases ht : m.target = []
  · simp [ht]
  · simp [ht, h]

theorem classifyNormals_skip (meta : List (String × Json)) (m : Mapping)
    (h : stepResult meta m = none) (l : List Mapping) :
    classifyNormals meta (m :: l) = classifyNormals meta l := by
  simp [classifyNormals, h]

theorem classifyNormals_middle (meta : List (String × Json)) (m : Mapping)
    (h : stepResult meta m = none) (pre post : List Mapping) :
    classifyNormals meta (pre ++ m :: post) = classifyNormals meta (pre ++ post) := by
  induction pre with
  | nil => simpa using classifyNormals_skip meta m h post
  | cons r pre ih =>
    simp only [List.cons_append, classifyNormals]
    cases stepResult meta r <;> simp [ih]

/-- Claim C4: a conditional rule none of whose condition keys occurs in
the file's metadata — in particular a rule with an empty condition map —
never matches (the `evaluated_keys == 0` guard), and removing it from
the conditional-rule list does not change the classification outcome,
whatever the fallback is. -/
theorem absent_rule_never_selected (meta : List (String × Json)) (m : Mapping)
    (h : ∀ p ∈ m.target, meta.lookup p.1 = none) :
    ruleMatches m.target meta = false
    ∧ ∀ (fb : Option Mapping) (pre post : List Mapping),
        classifyParts (fb, pre ++ m :: post) meta
          = classifyParts (fb, pre ++ post) meta := by
  have hrm : ruleMatches m.target meta = false :=
    ruleMatches_false_of_absent m.target meta h
  refine ⟨hrm, fun fb pre post => ?_⟩
  unfold classifyParts
  rw [classifyNormals_middle meta m (stepResult_eq_none meta m hrm) pre post]

/-- Witness for `absent_rule_never_selected`: a rule on key `"x"`
cannot capture a file whose metadata only has key `"y"`. -/
theorem absent_rule_never_selected_witness :
    ruleMatches [("x", Json.str "1")] [("y", Json.str "1")] = false
    ∧ classifyParts (some ⟨some "DoNotUse", []⟩,
        [⟨some "A", [("x", Json.str "1")]⟩, ⟨some "B", [("y", Json.str "1")]⟩])
        [("y", Json.str "1")]
      = classifyParts (some ⟨some "DoNotUse", []⟩,
        [⟨some "B", [("y", Json.str "1")]⟩]) [("y", Json.str "1")] := by
  have h := absent_rule_never_selected [("y", Json.str "1")]
    ⟨some "A", [("x", Json.str "1")]⟩ (by decide)
  exact ⟨h.1, h.2 (some ⟨some "DoNotUse", []⟩) []
    [⟨some "B", [("y", Json.str "1")]⟩]⟩

/-- Claim C1 counterexample: both rules fully match, the first one in
stored order has destination `""`, yet classification returns the
second rule's destination `"B"` — the source skips a fully matching
rule whose directory is falsy instead of returning its destination. -/
theorem first_match_counterexample :
    firstFullMatch
        [⟨some "", [("a", Json.str "x")]⟩, ⟨some "B", [("a", Json.str "x")]⟩]
        [("a", Json.str "x")]
      = some ⟨some "", [("a", Json.str "x")]⟩
    ∧ classify
        [⟨some "", [("a", Json.str "x")]⟩, ⟨some "B", [("a", Json.str "x")]⟩]
        [("a", Json.str "x")] = some "B" := by decide

theorem classifyNormals_find (meta : List (String × Json)) (l : List Mapping)
    (m : Mapping)
    (h : l.find?
        (fun r => ruleMatches r.target meta && (effectiveDir r.directory).isSome)
      = some m) :
    classifyNormals meta l = effectiveDir m.directory := by
  induction l with
  | nil => simp at h
  | cons r rest ih =>
    rw [List.find?_cons] at h
    cases hp : (ruleMatches r.target meta && (effectiveDir r.directory).isSome) with
    | true =>
      rw [hp] at h
      simp only [Option.some.injEq] at h
      subst h
      obtain ⟨h1, h2⟩ := Bool.and_eq_true_iff.mp hp
      have ht : r.target ≠ [] := by
        intro he
        rw [he, ruleMatches_nil] at h1
        exact Bool.false_ne_true h1
      have hs : stepResult meta r = effectiveDir r.directory := by
        unfold stepResult
        rw [if_neg ht, if_pos h1]
      cases ho : effectiveDir r.directory with
      | some d => simp [classifyNormals, hs, ho]
      | none => rw [ho] at h2; simp at h2
    | false =>
      rw [hp] at h
      have hsr : stepResult meta r = none := by
        unfold stepResult
        by_cases ht : r.target = []
        · simp [ht]
        · rw [if_neg ht]
          by_cases hrm : ruleMatches r.target meta
          · cases ho : effectiveDir r.directory with
            | none => simp [hrm, ho]
            | some d => rw [hrm, ho] at hp; simp at hp
          · simp [hrm]
      rw [classifyNormals_skip meta r hsr rest]
      exact ih h

/-- Claim C1 amended: classification returns the destination of the
first conditional rule, in stored order, that fully matches **and**
has a present, non-empty destination; a fully matching rule with an
absent or empty destination is passed over.  (In particular, with
non-empty destinations, an earlier matching rule always shadows a
later one.) -/
theorem classify_first_effective_match (ms : List Mapping)
    (meta : List (String × Json)) (m : Mapping)
    (h : (separate ms).2.find?
        (fun r => ruleMatches r.target meta && (effectiveDir r.directory).isSome)
      = some m) :
    classify ms meta = effectiveDir m.directory := by
  have hp := List.find?_some h
  have h2 := (Bool.and_eq_true_iff.mp hp).2
  have hc := classifyNormals_find meta (separate ms).2 m h
  unfold classify classifyParts
  rw [hc]
  cases ho : effectiveDir m.directory with
  | some d => rfl
  | none => rw [ho] at h2; simp at h2

/-- Witness for `classify_first_effective_match` on the counterexample
ruleset: the first rule with a usable destination is the second one. -/
theorem classify_first_effective_match_witness :
    classify [⟨some "", [("a", Json.str "x")]⟩, ⟨some "B", [("a", Json.str "x")]⟩]
      [("a", Json.str "x")] = effectiveDir (some "B") :=
  classify_first_effective_match _ _ ⟨some "B", [("a", Json.str "x")]⟩ (by decide)

theorem classify_single (key d : String) (meta : List (String × Json))
    (fv : Json) (hl : meta.lookup key = some fv) (hnull : fv ≠ Json.null)
    (hd : d ≠ "") (mv : Json) :
    classify [⟨some d, [(key, mv)]⟩] meta
      = if condMatches mv fv then some d else none := by
  have hsep : separate [(⟨some d, [(key, mv)]⟩ : Mapping)]
      = (none, [⟨some d, [(key, mv)]⟩]) := by
    simp [separate, separateLoop, isFallbackEntry]
  have hrm : ruleMatches [(key, mv)] meta = condMatches mv fv := by
    simp only [ruleMatches, evalTarget, hl, if_neg hnull]
    cases condMatches mv fv <;> simp [evalTarget]
  unfold classify
  rw [hsep]
  by_cases hc : condMatches mv fv
  · simp [classifyParts, classifyNormals, stepResult, hrm, hc, effectiveDir, hd]
  · simp [classifyParts, classifyNormals, stepResult, hrm, hc]

/-- Claim C5: with the condition key present in the file's metadata and
its value non-null, a list-valued rule condition selects the rule's
destination iff some member of the list, normalized, equals the file's
normalized value (OR semantics), and a scalar condition selects it iff
the two values are equal after normalizing both sides with the same
function. -/
theorem condition_or_semantics (key d : String) (meta : List (String × Json))
    (fv : Json) (hl : meta.lookup key = some fv) (hnull : fv ≠ Json.null)
    (hd : d ≠ "") :
    (∀ xs : List Json,
      (classify [⟨some d, [(key, Json.arr xs)]⟩] meta = some d ↔
        ∃ x ∈ xs, normalize_for_compare x = normalize_for_compare fv))
    ∧ ∀ mv : Json, (∀ ys, mv ≠ Json.arr ys) →
      (classify [⟨some d, [(key, mv)]⟩] meta = some d ↔
        normalize_for_compare fv = normalize_for_compare mv) := by
  constructor
  · intro xs
    rw [classify_single key d meta fv hl hnull hd]
    have hiff : condMatches (Json.arr xs) fv = true
        ↔ ∃ x ∈ xs, normalize_for_compare x = normalize_for_compare fv := by
      simp [condMatches]
    by_cases hc : condMatches (Json.arr xs) fv
    · simp only [if_pos hc]
      simpa using hiff.mp hc
    · simp only [if_neg hc]
      constructor
      · intro he; exact absurd he (by simp)
      · intro he; exact absurd (hiff.mpr he) hc
  · intro mv hmv
    rw [classify_single key d meta fv hl hnull hd]
    have hiff : condMatches mv fv = true
        ↔ normalize_for_compare fv = normalize_for_compare mv := by
      cases mv with
      | arr ys => exact absurd rfl (hmv ys)
      | null => simp [condMatches]
      | bool b => simp [condMatches]
      | num n => simp [condMatches]
      | str s => simp [condMatches]
      | obj o => simp [condMatches]
    by_cases hc : condMatches mv fv
    · simp only [if_pos hc]
      simpa using hiff.mp hc
    · simp only [if_neg hc]
      constructor
      · intro he; exact absurd he (by simp)
      · intro he; exact absurd (hiff.mpr he) hc

/-- Witness for `condition_or_semantics`: the file value `"X "`
normalizes to `"x"` and matches the second member of the list
condition, so the file goes to `"Dest"`; a scalar condition behaves the
same way. -/
theorem condition_or_semantics_witness :
    classify [⟨some "Dest", [("a", Json.arr [Json.str "p", Json.str "x"])]⟩]
      [("a", Json.str "X ")] = some "Dest"
    ∧ classify [⟨some "Dest", [("a", Json.str "x")]⟩]
      [("a", Json.str "X ")] = some "Dest" := by
  have h := condition_or_semantics "a" "Dest" [("a", Json.str "X ")]
    (Json.str "X ") rfl (by decide) (by decide)
  exact ⟨(h.1 [Json.str "p", Json.str "x"]).mpr
      ⟨Json.str "x", by decide, by decide⟩,
    (h.2 (Json.str "x") (fun ys h => Json.noConfusion h)).mpr (by decide)⟩

/-! ## Fallback separation (claims C6, C7) -/

theorem isFallbackEntry_eq (m : Mapping) (h : isFallbackEntry m = true) :
    m = ⟨some "DoNotUse", []⟩ := by
  obtain ⟨d, t⟩ := m
  simp only [isFallbackEntry, Bool.and_eq_true, decide_eq_true_eq,
    List.isEmpty_eq_true] at h
  rw [h.1, h.2]

theorem separateLoop_eq (ms : List Mapping) (dnu : Option Mapping)
    (acc : List Mapping) :
    separateLoop ms dnu acc =
      ((if ms.any isFallbackEntry then some ⟨some "DoNotUse", []⟩ else dnu),
       acc ++ ms.filter fun m => !isFallbackEntry m) := by
  induction ms generalizing dnu acc with
  | nil => simp [separateLoop]
  | cons m rest ih =>
    by_cases hm : isFallbackEntry m
    · rw [separateLoop, if_pos hm, ih]
      have hme := isFallbackEntry_eq m hm
      simp only [Prod.mk.injEq]
      constructor
      · rw [List.any_cons, hm, Bool.true_or]
        cases hr : rest.any isFallbackEntry
        · simp [hme]
        · simp
      · rw [List.filter_cons, show (!isFallbackEntry m) = false by simp [hm]]
        simp
    · rw [separateLoop, if_neg hm, ih]
      simp only [Prod.mk.injEq]
      constructor
      · rw [List.any_cons, show isFallbackEntry m = false by simpa using hm,
          Bool.false_or]
      · rw [List.filter_cons, show (!isFallbackEntry m) = true by simpa using hm]
        simp [List.append_assoc]

theorem classifyNormals_filter (meta : List (String × Json))
    (l : List Mapping) :
    classifyNormals meta (l.filter fun m => !isFallbackEntry m)
      = classifyNormals meta l := by
  induction l with
  | nil => rfl
  | cons m rest ih =>
    by_cases hm : isFallbackEntry m
    · have hs : stepResult meta m = none := by
        rw [isFallbackEntry_eq m hm]; rfl
      rw [List.filter_cons, if_neg (by simp [hm]), ih,
        classifyNormals_skip meta m hs rest]
    · rw [List.filter_cons, if_pos (by simpa using hm)]
      simp only [classifyNormals]
      cases stepResult meta m <;> simp [ih]

theorem classifyNormals_eraseP (meta : List (String × Json))
    (l : List Mapping) :
    classifyNormals meta (l.eraseP isFallbackEntry)
      = classifyNormals meta l := by
  induction l with
  | nil => rfl
  | cons m rest ih =>
    rw [List.eraseP_cons]
    by_cases hm : isFallbackEntry m
    · have hs : stepResult meta m = none := by
        rw [isFallbackEntry_eq m hm]; rfl
      rw [hm, cond_true, classifyNormals_skip meta m hs rest]
    · rw [show isFallbackEntry m = false by simpa using hm, cond_false]
      simp only [classifyNormals]
      cases stepResult meta m <;> simp [ih]

theorem classifyParts_eq (fb1 fb2 : Option Mapping) (l1 l2 : List Mapping)
    (meta : List (String × Json))
    (hn : classifyNormals meta l1 = classifyNormals meta l2)
    (hfb : (match fb1 with | some m => effectiveDir m.directory | none => none)
         = (match fb2 with | some m => effectiveDir m.directory | none => none)) :
    classifyParts (fb1, l1) meta = classifyParts (fb2, l2) meta := by
  unfold classifyParts
  rw [hn, hfb]

/-- Claim C6: the source's separation loop keeps overwriting
`donotuse_mapping` (last qualifying entry) and drops earlier qualifying
entries from the conditional list, but every structurally-qualifying
entry is the same record `⟨"DoNotUse", {}⟩` and an empty-condition rule
can never match, so classification behaves exactly as if the **first**
qualifying entry were taken as the fallback and every other same-labeled
entry were kept as an ordinary conditional rule (`separateSpec`). -/
theorem fallback_selection_equiv (ms : List Mapping)
    (meta : List (String × Json)) :
    classify ms meta = classifyParts (separateSpec ms) meta := by
  unfold classify separate separateSpec
  rw [separateLoop_eq, List.nil_append]
  cases hf : ms.find? isFallbackEntry with
  | none =>
    have hnone : ∀ x ∈ ms, ¬isFallbackEntry x = true :=
      List.find?_eq_none.mp hf
    have hany : ms.any isFallbackEntry = false := by
      cases ha : ms.any isFallbackEntry
      · rfl
      · obtain ⟨x, hx, hpx⟩ := List.any_eq_true.mp ha
        exact absurd hpx (hnone x hx)
    rw [hany]
    exact classifyParts_eq _ _ _ _ meta (classifyNormals_filter meta ms)
      (by simp)
  | some fb =>
    have hfb : fb = ⟨some "DoNotUse", []⟩ :=
      isFallbackEntry_eq fb (List.find?_some hf)
    have hany : ms.any isFallbackEntry = true :=
      List.any_eq_true.mpr ⟨fb, List.mem_of_find?_eq_some hf, List.find?_some hf⟩
    rw [hany]
    refine classifyParts_eq _ _ _ _ meta ?_ ?_
    · rw [classifyNormals_filter, classifyNormals_eraseP]
    · rw [hfb]
      simp

/-- Claim C7 counterexample: a persisted record missing both the
`"mapdata"` and `"sorted"` sections is structurally invalid, yet the
pass is not aborted: loading defaults to an empty rule list, the batch
runs to completion (`.ok`), and the file is classified (to no
destination) rather than the pass failing before any file is
processed. -/
theorem ruleset_validation_counterexample :
    sortPass (Json.obj []) [[("licenseName", Json.str "CC0")]]
      = .ok [none] := rfl

theorem mapM_loop_ok (g : List (String × Json) → Except String (Option String))
    (h : ∀ meta, g meta = .ok none) (files : List (List (String × Json)))
    (acc : List (Option String)) :
    List.mapM.loop g files acc
      = .ok (acc.reverse ++ files.map fun _ => none) := by
  induction files generalizing acc with
  | nil => simp [List.mapM.loop]; rfl
  | cons m rest ih =>
    simp only [List.mapM.loop, h m]
    rw [show ((Except.ok none : Except String (Option String)) >>= fun b =>
        List.mapM.loop g rest (b :: acc))
      = List.mapM.loop g rest (none :: acc) from rfl, ih]
    simp

theorem mapM_ok_of_all_ok (files : List (List (String × Json)))
    (g : List (String × Json) → Except String (Option String))
    (h : ∀ meta, g meta = .ok none) :
    files.mapM g = .ok (files.map fun _ => none) := by
  rw [show files.mapM g = List.mapM.loop g files [] from rfl,
    mapM_loop_ok g h files []]
  rfl

/-- Claim C7 amended: a persisted record with missing sections is not a
fatal error — whether the top level lacks the `"mapdata"` key or the
`"mapdata"` object lacks the `"sorted"` key, the rule list silently
defaults to empty, the classification pass runs over every file and
completes, and every file is left unmatched (no rule, no fallback),
instead of failing before any file is processed. -/
theorem missing_sections_not_fatal (fields : List (String × Json))
    (files : List (List (String × Json))) :
    (fields.lookup "mapdata" = none →
      sortPass (Json.obj fields) files = .ok (files.map fun _ => none))
    ∧ ∀ inner, fields.lookup "mapdata" = some (Json.obj inner) →
        inner.lookup "sorted" = none →
        sortPass (Json.obj fields) files = .ok (files.map fun _ => none) := by
  constructor
  · intro h
    have hget : getSortedMappings (Json.obj fields) = some (Json.arr []) := by
      simp [getSortedMappings, dictGetD, h]
    unfold sortPass
    rw [hget]
    exact mapM_ok_of_all_ok files _ fun meta => rfl
  · intro inner h1 h2
    have hget : getSortedMappings (Json.obj fields) = some (Json.arr []) := by
      simp [getSortedMappings, dictGetD, h1, h2]
    unfold sortPass
    rw [hget]
    exact mapM_ok_of_all_ok files _ fun meta => rfl

/-- Witness for `missing_sections_not_fatal`, at a record with no
`"mapdata"` key and at a record whose `"mapdata"` object has no
`"sorted"` key. -/
theorem missing_sections_not_fatal_witness :
    sortPass (Json.obj [("unrelated", Json.null)])
      [[("title", Json.str "t")]] = .ok [none]
    ∧ sortPass (Json.obj [("mapdata", Json.obj [("unsort", Json.obj [])])])
      [[("title", Json.str "t")]] = .ok [none] :=
  ⟨(missing_sections_not_fatal [("unrelated", Json.null)]
      [[("title", Json.str "t")]]).1 (by decide),
   (missing_sections_not_fatal [("mapdata", Json.obj [("unsort", Json.obj [])])]
      [[("title", Json.str "t")]]).2 [("unsort", Json.obj [])]
      (by decide) (by decide)⟩

/-! ## Lemmas about the adapters -/

theorem vrm0x_ok_inv (meta : List (String × Json)) (fname : String)
    (info : Info) (h : vrm0xGetLicenseInfo meta fname = .ok info) :
    ∃ r, vrm0xRedistribution meta = .ok r ∧ info = {
      file_name := .str fname
      vrm_version := .str "0.x"
      model_name := metaGetD meta "title" (.str "--")
      author := metaGetD meta "author" (.str "--")
      contact := metaGetD meta "contactInformation" (.str "--")
      reference_url := metaGetD meta "reference" (.str "--")
      commercial_usage := metaGetD meta "commercialUssageName" (.str "--")
      redistribution := .str r
      credit_notation := metaGetD meta "creditNotation" (.str "--")
      modification := metaGetD meta "modification" (.str "--")
      avatar_permission := metaGetD meta "allowedUserName" (.str "--")
      sexual_expression := metaGetD meta "sexualUssageName" (.str "--")
      violence_expression := metaGetD meta "violentUssageName" (.str "--")
      license := metaGetD meta "licenseName" (.str "--")
      other_permission_url := metaGetD meta "otherPermissionUrl" (.str "--")
      other_license_url := metaGetD meta "otherLicenseUrl" (.str "--") } := by
  unfold vrm0xGetLicenseInfo at h
  cases hr : vrm0xRedistribution meta with
  | error e => rw [hr] at h; exact absurd h (by simp)
  | ok r =>
    rw [hr] at h
    injection h with h
    exact ⟨r, rfl, h.symm⟩

theorem vrm1_ok_inv (meta : List (String × Json)) (fname : String)
    (info : Info) (h : vrm1GetLicenseInfo meta fname = .ok info) :
    ∃ a, pyJoin ", " (metaGetD meta "authors" (.arr [.str "--"])) = .ok a
      ∧ info = {
      file_name := .str fname
      vrm_version := .str "1.0"
      model_name := metaGetD meta "name" (.str "--")
      author := .str a
      contact := .str "--"
      reference_url := .str "--"
      commercial_usage := metaGetD meta "commercialUsage" (.str "--")
      redistribution := triState meta "allowRedistribution"
      credit_notation := metaGetD meta "creditNotation" (.str "--")
      modification := metaGetD meta "modification" (.str "--")
      avatar_permission := metaGetD meta "avatarPermission" (.str "--")
      sexual_expression := triState meta "allowExcessivelySexualUsage"
      violence_expression := triState meta "allowExcessivelyViolentUsage"
      license := metaGetD meta "licenseUrl" (.str "--")
      other_permission_url := .str "--"
      other_license_url := .str "--" } := by
  unfold vrm1GetLicenseInfo at h
  cases hj : pyJoin ", " (metaGetD meta "authors" (.arr [.str "--"])) with
  | error e => rw [hj] at h; exact absurd h (by simp)
  | ok a =>
    rw [hj] at h
    injection h with h
    exact ⟨a, rfl, h.symm⟩

theorem triState_none (meta : List (String × Json)) (k : String)
    (h : meta.lookup k = none) : triState meta k = .str "--" := by
  simp [triState, h]

theorem triState_true (meta : List (String × Json)) (k : String)
    (h : meta.lookup k = some (.bool true)) :
    triState meta k = .str "Allowed" := by
  simp [triState, h, truthy]

theorem triState_false (meta : List (String × Json)) (k : String)
    (h : meta.lookup k = some (.bool false)) :
    triState meta k = .str "Not allowed" := by
  simp [triState, h, truthy]

/-- Claim C2: for a VRM 1.0 `meta` object, each of the three tri-state
boolean source fields maps: key absent → sentinel `"--"`, value `true`
→ `"Allowed"`, value `false` → `"Not allowed"`, and the three outputs
are pairwise distinct. -/
theorem vrm1_tristate (meta : List (String × Json)) (fname : String)
    (info : Info) (h : vrm1GetLicenseInfo meta fname = .ok info) :
    ((meta.lookup "allowRedistribution" = none →
        info.redistribution = .str "--")
      ∧ (meta.lookup "allowRedistribution" = some (.bool true) →
        info.redistribution = .str "Allowed")
      ∧ (meta.lookup "allowRedistribution" = some (.bool false) →
        info.redistribution = .str "Not allowed"))
    ∧ ((meta.lookup "allowExcessivelySexualUsage" = none →
        info.sexual_expression = .str "--")
      ∧ (meta.lookup "allowExcessivelySexualUsage" = some (.bool true) →
        info.sexual_expression = .str "Allowed")
      ∧ (meta.lookup "allowExcessivelySexualUsage" = some (.bool false) →
        info.sexual_expression = .str "Not allowed"))
    ∧ ((meta.lookup "allowExcessivelyViolentUsage" = none →
        info.violence_expression = .str "--")
      ∧ (meta.lookup "allowExcessivelyViolentUsage" = some (.bool true) →
        info.violence_expression = .str "Allowed")
      ∧ (meta.lookup "allowExcessivelyViolentUsage" = some (.bool false) →
        info.violence_expression = .str "Not allowed"))
    ∧ (Json.str "--" ≠ .str "Allowed" ∧ Json.str "--" ≠ .str "Not allowed"
      ∧ Json.str "Allowed" ≠ .str "Not allowed") := by
  obtain ⟨a, hj, hi⟩ := vrm1_ok_inv meta fname info h
  subst hi
  refine ⟨⟨fun hk => triState_none _ _ hk, fun hk => triState_true _ _ hk,
      fun hk => triState_false _ _ hk⟩,
    ⟨fun hk => triState_none _ _ hk, fun hk => triState_true _ _ hk,
      fun hk => triState_false _ _ hk⟩,
    ⟨fun hk => triState_none _ _ hk, fun hk => triState_true _ _ hk,
      fun hk => triState_false _ _ hk⟩,
    by simp, by simp, by simp⟩

/-- Witness for `vrm1_tristate`: a container with
`allowRedistribution = false` yields `"Not allowed"` (distinct from the
absent case's `"--"`). -/
theorem vrm1_tristate_witness :
    (vrm1GetLicenseInfo [("allowRedistribution", Json.bool false)] "x").map
      (fun i => i.redistribution) = Except.ok (Json.str "Not allowed") := by
  have h := vrm1_tristate [("allowRedistribution", Json.bool false)] "x" _ rfl
  exact congrArg Except.ok (h.1.2.2 rfl)

/-- Claim C10: for every VRM 1.0 `meta` object, the contact,
reference-URL, other-permission-URL and other-license-URL fields of the
unified record are hard-coded to the sentinel `"--"`, whatever the
source object contains. -/
theorem vrm1_constant_fields (meta : List (String × Json)) (fname : String)
    (info : Info) (h : vrm1GetLicenseInfo meta fname = .ok info) :
    info.contact = .str "--" ∧ info.reference_url = .str "--"
    ∧ info.other_permission_url = .str "--"
    ∧ info.other_license_url = .str "--" := by
  obtain ⟨a, hj, hi⟩ := vrm1_ok_inv meta fname info h
  subst hi
  exact ⟨rfl, rfl, rfl, rfl⟩

/-- Witness for `vrm1_constant_fields`: even when the source object
carries the legacy contact / reference keys, the VRM 1.0 adapter
ignores them. -/
theorem vrm1_constant_fields_witness :
    (vrm1GetLicenseInfo
      [("contactInformation", Json.str "me"), ("reference", Json.str "r"),
       ("otherPermissionUrl", Json.str "u")] "x").map
      (fun i => i.contact) = Except.ok (Json.str "--") := by
  have h := vrm1_constant_fields
    [("contactInformation", Json.str "me"), ("reference", Json.str "r"),
     ("otherPermissionUrl", Json.str "u")] "x" _ rfl
  exact congrArg Except.ok h.1

/-- Claim C8: for a legacy `meta` object, the derived redistribution
field is the first `redistribution` query parameter of the
`otherPermissionUrl` URL; when the key is absent or the URL empty (or
it carries no such parameter, in which case `getQueryParamD` falls back
to the default), the field is the sentinel `"--"`. -/
theorem url_redistribution_derived (meta : List (String × Json))
    (fname : String) (info : Info)
    (h : vrm0xGetLicenseInfo meta fname = .ok info) :
    (meta.lookup "otherPermissionUrl" = none →
      info.redistribution = .str "--")
    ∧ ∀ s, meta.lookup "otherPermissionUrl" = some (.str s) →
      info.redistribution
        = .str (if s = "" then "--" else getQueryParamD s "redistribution" "--") := by
  obtain ⟨r, hr, hi⟩ := vrm0x_ok_inv meta fname info h
  subst hi
  constructor
  · intro hk
    have hg : metaGetD meta "otherPermissionUrl" (Json.str "") = Json.str "" := by
      simp [metaGetD, hk]
    simp only [vrm0xRedistribution, hg] at hr
    rw [if_neg (by decide)] at hr
    injection hr with hr
    rw [← hr]
  · intro s hk
    have hg : metaGetD meta "otherPermissionUrl" (Json.str "") = Json.str s := by
      simp [metaGetD, hk]
    simp only [vrm0xRedistribution, hg] at hr
    by_cases hs : s = ""
    · subst hs
      rw [if_neg (by decide)] at hr
      injection hr with hr
      rw [if_pos rfl, ← hr]
    · rw [if_pos (by simp [truthy, hs])] at hr
      injection hr with hr
      rw [if_neg hs, ← hr]

/-- Witness for `url_redistribution_derived`: the spec's end-to-end
example, `otherPermissionUrl = "https://example.com?redistribution=Allow"`
gives redistribution `"Allow"`. -/
theorem url_redistribution_derived_witness :
    (vrm0xGetLicenseInfo
      [("otherPermissionUrl",
        Json.str "https://example.com?redistribution=Allow")] "x").map
      (fun i => i.redistribution) = Except.ok (Json.str "Allow") := by
  have h := (url_redistribution_derived
    [("otherPermissionUrl",
      Json.str "https://example.com?redistribution=Allow")] "x" _ rfl).2
    "https://example.com?redistribution=Allow" rfl
  rw [show (if ("https://example.com?redistribution=Allow" : String) = ""
      then "--"
      else getQueryParamD "https://example.com?redistribution=Allow"
        "redistribution" "--") = "Allow" from by decide] at h
  exact congrArg Except.ok h

/-! ## Fields are populated (claim C3) -/

theorem lookup_mem (l : List (String × Json)) (k : String) (v : Json)
    (h : l.lookup k = some v) : (k, v) ∈ l := by
  induction l with
  | nil => simp at h
  | cons p rest ih =>
    obtain ⟨k2, v2⟩ := p
    rw [List.lookup_cons] at h
    cases hkk : (k == k2) with
    | true =>
      rw [hkk] at h
      injection h with h
      subst h
      rw [show k2 = k from (eq_of_beq hkk).symm]
      exact List.mem_cons_self _ _
    | false =>
      rw [hkk] at h
      exact List.mem_cons_of_mem _ (ih h)

theorem metaGetD_ne_null (meta : List (String × Json)) (k : String) (d : Json)
    (hm : ∀ p ∈ meta, p.2 ≠ Json.null) (hd : d ≠ Json.null) :
    metaGetD meta k d ≠ Json.null := by
  unfold metaGetD
  cases hl : meta.lookup k with
  | none => simpa using hd
  | some v => simpa using hm (k, v) (lookup_mem meta k v hl)

theorem if_str_ne_null (c : Bool) (s1 s2 : String) :
    (if c = true then Json.str s1 else Json.str s2) ≠ Json.null := by
  cases c <;> simp

theorem triState_ne_null (meta : List (String × Json)) (k : String) :
    triState meta k ≠ Json.null := by
  unfold triState
  cases h : meta.lookup k with
  | none => simp
  | some v => cases v <;> simp [if_str_ne_null]

/-- Claim C3 counterexample: a legacy container whose `meta` carries an
explicit JSON `null` under `"title"` produces a unified record whose
model-name field **is** the native JSON `null` — present-but-null
source values are copied through, so not every field is populated. -/
theorem adapter_null_passthrough_counterexample :
    (vrm0xGetLicenseInfo [("title", Json.null)] "f.vrm").map
      (fun i => i.model_name) = Except.ok Json.null := rfl

/-- Claim C3 amended: absent source keys do normalize to the sentinel
`"--"` (a fully empty `meta` yields the all-sentinel record under both
adapters), and every field of the unified record is non-null provided
no recognized source key is explicitly bound to JSON `null`; only a
present-and-null source value is copied through as `null`. -/
theorem adapter_fields_populated (meta : List (String × Json))
    (fname : String) (hm : ∀ p ∈ meta, p.2 ≠ Json.null) :
    (∀ info, vrm0xGetLicenseInfo meta fname = .ok info → nonNullInfo info)
    ∧ (∀ info, vrm1GetLicenseInfo meta fname = .ok info → nonNullInfo info)
    ∧ vrm0xGetLicenseInfo [] fname = .ok
        { file_name := .str fname, vrm_version := .str "0.x",
          model_name := .str "--", author := .str "--", contact := .str "--",
          reference_url := .str "--", commercial_usage := .str "--",
          redistribution := .str "--", credit_notation := .str "--",
          modification := .str "--", avatar_permission := .str "--",
          sexual_expression := .str "--", violence_expression := .str "--",
          license := .str "--", other_permission_url := .str "--",
          other_license_url := .str "--" }
    ∧ vrm1GetLicenseInfo [] fname = .ok
        { file_name := .str fname, vrm_version := .str "1.0",
          model_name := .str "--", author := .str "--", contact := .str "--",
          reference_url := .str "--", commercial_usage := .str "--",
          redistribution := .str "--", credit_notation := .str "--",
          modification := .str "--", avatar_permission := .str "--",
          sexual_expression := .str "--", violence_expression := .str "--",
          license := .str "--", other_permission_url := .str "--",
          other_license_url := .str "--" } := by
  refine ⟨?_, ?_, rfl, rfl⟩
  · intro info h
    obtain ⟨r, hr, hi⟩ := vrm0x_ok_inv meta fname info h
    subst hi
    exact ⟨by simp, by simp,
      metaGetD_ne_null meta "title" _ hm (by simp),
      metaGetD_ne_null meta "author" _ hm (by simp),
      metaGetD_ne_null meta "contactInformation" _ hm (by simp),
      metaGetD_ne_null meta "reference" _ hm (by simp),
      metaGetD_ne_null meta "commercialUssageName" _ hm (by simp),
      by simp,
      metaGetD_ne_null meta "creditNotation" _ hm (by simp),
      metaGetD_ne_null meta "modification" _ hm (by simp),
      metaGetD_ne_null meta "allowedUserName" _ hm (by simp),
      metaGetD_ne_null meta "sexualUssageName" _ hm (by simp),
      metaGetD_ne_null meta "violentUssageName" _ hm (by simp),
      metaGetD_ne_null meta "licenseName" _ hm (by simp),
      metaGetD_ne_null meta "otherPermissionUrl" _ hm (by simp),
      metaGetD_ne_null meta "otherLicenseUrl" _ hm (by simp)⟩
  · intro info h
    obtain ⟨a, hj, hi⟩ := vrm1_ok_inv meta fname info h
    subst hi
    exact ⟨by simp, by simp,
      metaGetD_ne_null meta "name" _ hm (by simp),
      by simp, by simp, by simp,
      metaGetD_ne_null meta "commercialUsage" _ hm (by simp),
      triState_ne_null meta "allowRedistribution",
      metaGetD_ne_null meta "creditNotation" _ hm (by simp),
      metaGetD_ne_null meta "modification" _ hm (by simp),
      metaGetD_ne_null meta "avatarPermission" _ hm (by simp),
      triState_ne_null meta "allowExcessivelySexualUsage",
      triState_ne_null meta "allowExcessivelyViolentUsage",
      metaGetD_ne_null meta "licenseUrl" _ hm (by simp),
      by simp, by simp⟩

/-- Witness for `adapter_fields_populated` at a null-free `meta`. -/
theorem adapter_fields_populated_witness :
    nonNullInfo
      { file_name := .str "f.vrm", vrm_version := .str "0.x",
        model_name := .str "M", author := .str "--", contact := .str "--",
        reference_url := .str "--", commercial_usage := .str "--",
        redistribution := .str "--", credit_notation := .str "--",
        modification := .str "--", avatar_permission := .str "--",
        sexual_expression := .str "--", violence_expression := .str "--",
        license := .str "--", other_permission_url := .str "--",
        other_license_url := .str "--" } :=
  (adapter_fields_populated [("title", Json.str "M")] "f.vrm"
    (by decide)).1 _ rfl

end VRMTool
